import Mathlib

/-!
Verification of the Clifford tableau engine
(`qiskit/quantum_info/operators/symplectic/clifford.py` and
`clifford_utils.py`) against its natural-language specification.

The Python code is shallowly embedded: boolean numpy arrays become
`List Bool` / `List (List Bool)`, in-place mutation becomes explicit
state passing, and code that raises becomes `Except` / `Option`.
Support modules that are not part of the analysed sources
(`stabilizer_table.py`, `base_operator.py`, `symplectic_utils.py`,
Python's `random.Random`) are modelled from the specification text and
are marked as such in their doc comments.
-/

/-- Modelled from the spec: `stabilizer_table.py` is missing from the
analysed sources.  Per the spec a stabilizer table is an ordered
sequence of boolean row-vectors of length `2N` (X-block columns
followed by Z-block columns) plus a parallel boolean phase vector. -/
structure StabTable where
  array : List (List Bool)
  phase : List Bool
deriving DecidableEq, Repr

/-- Modelled from the spec: the qubit count of a table is half its row
length (rows have length `2N`). -/
def StabTable.n_qubits (t : StabTable) : Nat := (t.array.headD []).length / 2

/-- Modelled from the spec: `size` is the number of Pauli rows stored. -/
def StabTable.size (t : StabTable) : Nat := t.array.length

/-- The Clifford operator: wraps one stabilizer table
(`Clifford._table` in the source). -/
structure Clifford where
  table : StabTable
deriving DecidableEq, Repr

def Clifford.n_qubits (c : Clifford) : Nat := c.table.n_qubits

/-- Error kinds raised by the embedded code (`QiskitError` and
`NotImplementedError` in the source). -/
inductive CliffordError where
  | invalidShape
  | incompatibleDims
  | notImplemented
deriving DecidableEq, Repr

/-- Embeds `Clifford.__init__` when handed a stabilizer table built from
raw data: the constructor stores the table and raises a `QiskitError`
iff `self._table.size != 2 * self._table.n_qubits`
(clifford.py lines 47-56). -/
def Clifford.init (t : StabTable) : Except CliffordError Clifford :=
  if t.size ≠ 2 * t.n_qubits then Except.error CliffordError.invalidShape
  else Except.ok ⟨t⟩

/-- Boolean identity matrix as a list of rows (`np.eye(m, dtype=bool)`). -/
def eyeRows (m : Nat) : List (List Bool) :=
  (List.range m).map (fun i => (List.range m).map (fun j => decide (i = j)))

/-- The identity Clifford on `n` qubits
(`Clifford(np.eye(2 * n))` in the source). -/
def eyeClifford (n : Nat) : Clifford :=
  ⟨⟨eyeRows (2 * n), List.replicate (2 * n) false⟩⟩

/-! ### Group order (`random_clifford`, clifford_utils.py lines 55-59)

    size = pow(2, num_qubits ** 2)
    for i in range(1, num_qubits+1):
        size *= pow(4, i) - 1

Arbitrary-precision integer arithmetic is embedded as `Nat`, which has
no fixed width and hence cannot overflow. -/
def group_order_size (num_qubits : Nat) : Nat :=
  (List.range num_qubits).foldl (fun size i => size * (4 ^ (i + 1) - 1))
    (2 ^ (num_qubits ^ 2))

lemma foldl_mul_range (f : Nat → Nat) (a n : Nat) :
    (List.range n).foldl (fun s i => s * f i) a = a * ∏ k ∈ Finset.range n, f k := by
  induction n with
  | zero => simp
  | succ m ih =>
      rw [List.range_succ, List.foldl_append, ih, Finset.prod_range_succ]
      simp [Nat.mul_assoc]

/-- C8: the sampling group-order value equals
`2^(n²) · Π_{k=1..n}(4^k − 1)`, the order of Sp(2n,2), computed in `Nat`
(arbitrary precision, no fixed-width overflow). -/
theorem group_order_size_eq (n : Nat) (hn : 1 ≤ n) :
    group_order_size n = 2 ^ (n ^ 2) * ∏ k ∈ Finset.Icc 1 n, (4 ^ k - 1) := by
  clear hn
  rw [group_order_size, foldl_mul_range]
  congr 1
  induction n with
  | zero => simp
  | succ m ih =>
      rw [Finset.prod_range_succ, Finset.prod_Icc_succ_top (Nat.le_add_left 1 m), ih]

/-- Witness for C8: the theorem applied at the concrete qubit count 3. -/
theorem group_order_size_eq_witness :
    1 ≤ 3 ∧ group_order_size 3 = 2 ^ (3 ^ 2) * ∏ k ∈ Finset.Icc 1 3, (4 ^ k - 1) :=
  ⟨by decide, group_order_size_eq 3 (by decide)⟩

/-! ### Validity check (`Clifford.is_unitary`, clifford.py lines 135-144)

    nq = self.n_qubits
    seye = _symeye(nq)
    cliffdata = self.table.array
    return np.array_equal((np.dot(cliffdata, np.dot(seye, cliffdata)) % 2).astype(bool), seye)

Both operands of `np.dot` have boolean dtype, so numpy computes the
matrix product with AND as multiplication and OR as (saturating)
addition; the subsequent `% 2` on a boolean array maps True to 1 and
False to 0 and is therefore a no-op after `.astype(bool)`.  Note that
the second factor is `cliffdata`, not its transpose. -/

/-- Entry `(i, j)` of the boolean tableau array of a Clifford. -/
def tableEntry (c : Clifford) : Nat → Nat → Bool :=
  fun i j => (c.table.array.getD i []).getD j false

/-- Dot product of boolean vectors as numpy computes it for `dtype=bool`
operands: OR of ANDs. -/
def boolDot (m : Nat) (f g : Nat → Bool) : Bool :=
  (List.range m).any (fun k => f k && g k)

/-- Matrix product of boolean matrices as `np.dot` computes it for
`dtype=bool` operands. -/
def matMulBool (m : Nat) (A B : Nat → Nat → Bool) : Nat → Nat → Bool :=
  fun i j => boolDot m (A i) (fun k => B k j)

/-- The block-antidiagonal matrix `_symeye(n)` (clifford.py lines 21-23):
`[[0, I], [I, 0]]` of size `2n`. -/
def symeye (n : Nat) : Nat → Nat → Bool :=
  fun i j => if i < n then decide (j = i + n) else decide (j + n = i)

/-- Embeds `Clifford.is_unitary` exactly as written: it compares
`np.dot(T, np.dot(Ω, T))` (boolean OR/AND product, no transpose,
the `% 2` being a no-op on booleans) against `Ω` entrywise. -/
def Clifford.is_unitary (c : Clifford) : Bool :=
  let nq := c.n_qubits
  let seye := symeye nq
  let prod := matMulBool (2 * nq) (tableEntry c) (matMulBool (2 * nq) seye (tableEntry c))
  decide (∀ i < 2 * nq, ∀ j < 2 * nq, prod i j = seye i j)

/-- GF(2) dot product (XOR of ANDs), for the condition the claim states. -/
def dot2 (m : Nat) (f g : Nat → Bool) : Bool :=
  (List.range m).foldl (fun acc k => Bool.xor acc (f k && g k)) false

/-- GF(2) matrix product, for the condition the claim states. -/
def matMul2 (m : Nat) (A B : Nat → Nat → Bool) : Nat → Nat → Bool :=
  fun i j => dot2 m (A i) (fun k => B k j)

/-- The condition the claim (and the spec) states for validity:
`T · Ω · Tᵀ mod 2 == Ω` over the `2n × 2n` blocks. -/
def symplectic_condition (n : Nat) (T : Nat → Nat → Bool) : Bool :=
  let P := matMul2 (2 * n) T (matMul2 (2 * n) (symeye n) (fun i j => T j i))
  decide (∀ i < 2 * n, ∀ j < 2 * n, P i j = symeye n i j)

/-- The tableau of the 1-qubit phase gate S: a valid Clifford element
(it satisfies the symplectic condition `T·Ω·Tᵀ mod 2 = Ω`). -/
def sGateClifford : Clifford := ⟨⟨[[true, true], [false, true]], [false, false]⟩⟩

/-- C3: `is_unitary` is NOT equivalent to `T·Ω·Tᵀ mod 2 == Ω`.  At the
valid S-gate tableau the claimed condition holds, yet `is_unitary`
returns `false`, because the code multiplies `T·Ω·T` without the
transpose (and with numpy's boolean OR/AND product). -/
theorem is_unitary_eval_sgate :
    symplectic_condition 1 (tableEntry sGateClifford) = true ∧
      Clifford.is_unitary sGateClifford = false := by decide

/-! ### Composition (`Clifford.compose`, clifford.py lines 182-220)

After validating dimensions the method unconditionally raises
`NotImplementedError` ("This method has not been implemented for
Clifford operators yet."); it never calls the `_compose_clifford`
helper (which in the source is not even syntactically well formed). -/

/-- Embeds `Clifford.compose` with `qargs = None`.  The dimension check
`self._get_compose_dims(other, qargs, front)` lives in the absent
`base_operator.py`; modelled from the spec: with no qargs both operands
must have equal qubit count, otherwise a validation error is raised.
After the check the method raises `NotImplementedError`. -/
def Clifford.compose (self other : Clifford) (front : Bool) : Except CliffordError Clifford :=
  if self.n_qubits = other.n_qubits then Except.error CliffordError.notImplemented
  else Except.error CliffordError.incompatibleDims

/-- Counterexample for C1: composing the 1-qubit identity Clifford with
itself fails with the not-implemented error rather than returning the
group product, refuting the claim's success clause at a concrete input. -/
theorem compose_eye_not_implemented :
    Clifford.compose (eyeClifford 1) (eyeClifford 1) false
      = Except.error CliffordError.notImplemented := by
  rfl

/-- C1 (amended): for every pair of Clifford elements on the same number
of qubits and either value of `front`, `compose` fails with the
not-implemented error (the tableau row-sum product appears only in the
unreachable `_compose_clifford` helper). -/
theorem compose_raises_not_implemented (a b : Clifford) (front : Bool)
    (h : a.n_qubits = b.n_qubits) :
    Clifford.compose a b front = Except.error CliffordError.notImplemented := by
  simp [Clifford.compose, h]

/-- Witness for C1's amended theorem at the 1-qubit identity pair. -/
theorem compose_raises_not_implemented_witness :
    (eyeClifford 1).n_qubits = (eyeClifford 1).n_qubits ∧
      Clifford.compose (eyeClifford 1) (eyeClifford 1) true
        = Except.error CliffordError.notImplemented :=
  ⟨rfl, compose_raises_not_implemented (eyeClifford 1) (eyeClifford 1) true rfl⟩

/-! ### Row-sum (`Clifford._rowsum_AG`, clifford.py lines 368-379)

    def _rowsum_AG(self, rowh, rowi):
        nq = (len(rowh)-1)//2
        phaseout = rowh[-1]^rowi[-1]
        for ind in range(nq):
            phaseout = phaseout^self._g_AG(rowh[ind], rowh[nq+ind], rowi[ind], rowi[nq+ind])
            rowh[:-1] = np.logical_xor(rowh[:-1], rowi[:-1])
            rowh[-1] = phaseout

Note the indentation: the XOR of the bit-vectors and the phase
write-back are INSIDE the per-qubit loop, so the source row is XORed
into the target once per qubit, and `g` reads partially updated target
bits from the second iteration on.  A row is a boolean vector of length
`2n + 1`: X bits, Z bits, then the phase bit. -/

/-- Embeds `Clifford._g_AG`: the Aaronson-Gottesman sign rule. -/
def g_AG (x1 z1 x2 z2 : Bool) : Bool :=
  (!x1 && z1 && x2 && !z2) || (x1 && !z1 && x2 && z2) || (x1 && z1 && !x2 && z2)

/-- Embeds `Clifford._rowsum_AG` exactly as written (XOR and phase
write-back inside the loop); returns the final target row. -/
def rowsum_AG (rowh rowi : List Bool) : List Bool :=
  let nq := (rowh.length - 1) / 2
  let res := (List.range nq).foldl
    (fun (st : List Bool × Bool) ind =>
      let rh := st.1
      let ph := Bool.xor st.2
        (g_AG (rh.getD ind false) (rh.getD (nq + ind) false)
          (rowi.getD ind false) (rowi.getD (nq + ind) false))
      (List.zipWith Bool.xor rh.dropLast rowi.dropLast ++ [ph], ph))
    (rowh, Bool.xor (rowh.getLastD false) (rowi.getLastD false))
  res.1

/-- The row-sum operation as the claim states it: XOR the source bits
into the target exactly once, and set the phase to the XOR of the two
phase bits with the accumulation of `g` over the target row's original
(pre-update) bits. -/
def rowsum_claimed (rowh rowi : List Bool) : List Bool :=
  let nq := (rowh.length - 1) / 2
  let ph := (List.range nq).foldl
    (fun acc k => Bool.xor acc
      (g_AG (rowh.getD k false) (rowh.getD (nq + k) false)
        (rowi.getD k false) (rowi.getD (nq + k) false)))
    (Bool.xor (rowh.getLastD false) (rowi.getLastD false))
  List.zipWith Bool.xor rowh.dropLast rowi.dropLast ++ [ph]

/-- C2: at the 2-qubit rows `h = X⊗I` (bits `[1,0,0,0]`, phase 0) and
`i = Z⊗I` (bits `[0,0,1,0]`, phase 0) the code leaves the target
bit-vector unchanged (it XORs the source in twice), while the claimed
row-sum XORs it in exactly once; the two results differ. -/
theorem rowsum_AG_eval_diverges :
    rowsum_AG [true, false, false, false, false] [false, false, true, false, false]
        = [true, false, false, false, false] ∧
      rowsum_claimed [true, false, false, false, false] [false, false, true, false, false]
        = [true, false, true, false, false] := by decide

/-! ### Copy-construction (`Clifford.__init__`, clifford.py lines 28-34)

    # Initialize from another Clifford by sharing the underlying
    # StabilizerTable
    if isinstance(data, Clifford):
        self._table = data._table

The new object holds a reference to the SAME table object.  To make the
aliasing observable we model table storage as an explicit heap (a list
of tables addressed by index) and a Clifford as a reference into it. -/

/-- A Clifford as a reference into the heap of stabilizer tables. -/
structure CliffordRef where
  tid : Nat
deriving DecidableEq, Repr

/-- Embeds the `isinstance(data, Clifford)` branch of `Clifford.__init__`:
the new object shares the underlying table (same heap index);
no new table is allocated. -/
def clifford_init_share (data : CliffordRef) : CliffordRef := ⟨data.tid⟩

/-- Embeds `Clifford.reset` (clifford.py lines 274-278) acting on a
table: the array becomes `np.eye(len(array))` and the phase becomes
zeros of the same length. -/
def reset_table (t : StabTable) : StabTable :=
  ⟨eyeRows t.array.length, List.replicate t.phase.length false⟩

/-- Read the table a Clifford reference points at. -/
def readTable (h : List StabTable) (r : CliffordRef) : StabTable :=
  h.getD r.tid ⟨[], []⟩

/-- Apply `reset` to the Clifford reference `r`: its table slot in the
heap is overwritten. -/
def resetAt (h : List StabTable) (r : CliffordRef) : List StabTable :=
  h.set r.tid (reset_table (readTable h r))

/-- A concrete non-identity table (S-gate array with a set phase bit),
used as the original element in the aliasing scenario. -/
def t0ex : StabTable := ⟨[[true, true], [false, true]], [true, false]⟩

/-- Counterexample for C4: construct a Clifford from the element at heap
slot 0 and reset the new element; the original element's table (array
and phase) has changed, refuting the deep-copy claim at this input. -/
theorem clifford_copy_aliasing_cex :
    readTable (resetAt [t0ex] (clifford_init_share ⟨0⟩)) ⟨0⟩ ≠ t0ex := by decide

/-- C4 (amended): copy-construction shares the underlying table rather
than deep-copying it, so resetting the new element overwrites the
original element's storage with the identity table. -/
theorem clifford_copy_shares_storage (h : List StabTable) (r : CliffordRef)
    (hr : r.tid < h.length) :
    readTable (resetAt h (clifford_init_share r)) r = reset_table (readTable h r) := by
  show (h.set r.tid (reset_table (h.getD r.tid ⟨[], []⟩))).getD r.tid ⟨[], []⟩
      = reset_table (h.getD r.tid ⟨[], []⟩)
  rw [List.getD_eq_getElem _ _ (by simpa using hr)]
  simp

/-- Witness for C4's amended theorem at the concrete one-slot heap. -/
theorem clifford_copy_shares_storage_witness :
    (0 : Nat) < [t0ex].length ∧
      readTable (resetAt [t0ex] (clifford_init_share ⟨0⟩)) ⟨0⟩
        = reset_table (readTable [t0ex] ⟨0⟩) :=
  ⟨by decide, clifford_copy_shares_storage [t0ex] ⟨0⟩ (by decide)⟩

/-! ### Conjugation (`Clifford.conjugate`, clifford.py lines 166-172)

    x = self.table.X
    z = self.table.Z
    ret = self.copy()
    ret.table.phase = self.table.phase ^ (np.sum(x & z, axis=1) % 2)
    return ret

`StabilizerTable.X` / `.Z` (the first / second half of the columns) and
the deep `copy()` live in the absent support modules and are modelled
from the spec. -/

/-- Modelled from the spec: `StabilizerTable.X`, the X-block columns
(first half) of every row; `stabilizer_table.py` is absent. -/
def StabTable.Xrows (t : StabTable) : List (List Bool) :=
  t.array.map (fun row => row.take t.n_qubits)

/-- Modelled from the spec: `StabilizerTable.Z`, the Z-block columns
(second half) of every row; `stabilizer_table.py` is absent. -/
def StabTable.Zrows (t : StabTable) : List (List Bool) :=
  t.array.map (fun row => (row.drop t.n_qubits).take t.n_qubits)

/-- Embeds `Clifford.conjugate`: a copy whose phase vector is the
original phase XOR (row-wise sum of `X & Z` mod 2). -/
def Clifford.conjugate (c : Clifford) : Clifford :=
  ⟨⟨c.table.array,
    List.zipWith Bool.xor c.table.phase
      (List.zipWith
        (fun xr zr => decide ((List.zipWith (fun a b => a && b) xr zr).count true % 2 = 1))
        c.table.Xrows c.table.Zrows)⟩⟩

/-- C5: `conjugate` keeps the X and Z bit arrays and maps each phase bit
to `phase XOR (popcount(X_row AND Z_row) mod 2)`; the receiver is
untouched (the embedding is a pure function of the input element). -/
theorem conjugate_spec (c : Clifford) (r : Nat)
    (hp : r < c.table.phase.length) (ha : r < c.table.array.length) :
    (Clifford.conjugate c).table.array = c.table.array ∧
      (Clifford.conjugate c).table.phase.getD r false =
        Bool.xor (c.table.phase.getD r false)
          (decide ((List.zipWith (fun a b => a && b)
              ((c.table.array.getD r []).take c.n_qubits)
              (((c.table.array.getD r []).drop c.n_qubits).take c.n_qubits)).count true
            % 2 = 1)) := by
  refine ⟨rfl, ?_⟩
  have hx : r < c.table.Xrows.length := by simpa [StabTable.Xrows] using ha
  have hz : r < c.table.Zrows.length := by simpa [StabTable.Zrows] using ha
  have hlen : r < ((Clifford.conjugate c).table.phase).length := by
    simp only [Clifford.conjugate, List.length_zipWith]
    omega
  rw [List.getD_eq_getElem _ _ hlen, List.getD_eq_getElem _ _ hp,
    List.getD_eq_getElem _ _ ha]
  simp only [Clifford.conjugate, List.getElem_zipWith, StabTable.Xrows, StabTable.Zrows,
    List.getElem_map]
  simp [Clifford.n_qubits]

/-- Witness for C5 at the S-gate element, row 0 (a Y-type row, so the
phase bit flips). -/
theorem conjugate_spec_witness :
    (0 : Nat) < sGateClifford.table.phase.length ∧
      (0 : Nat) < sGateClifford.table.array.length ∧
      ((Clifford.conjugate sGateClifford).table.array = sGateClifford.table.array ∧
        (Clifford.conjugate sGateClifford).table.phase.getD 0 false =
          Bool.xor (sGateClifford.table.phase.getD 0 false)
            (decide ((List.zipWith (fun a b => a && b)
                ((sGateClifford.table.array.getD 0 []).take sGateClifford.n_qubits)
                (((sGateClifford.table.array.getD 0 []).drop sGateClifford.n_qubits).take
                  sGateClifford.n_qubits)).count true % 2 = 1))) :=
  ⟨by decide, by decide, conjugate_spec sGateClifford 0 (by decide) (by decide)⟩

/-! ### Random sampling (`random_clifford`, clifford_utils.py lines 26-80)

    rng = Random()
    rng.seed(seed)
    phase = np.array([rng.randint(0, 1) for _ in range(2 * num_qubits)], dtype=np.bool)
    size = ...                      -- `group_order_size` above
    rint = rng.randrange(size)
    symp = symplectic(rint, num_qubits)
    ... row and column reindexing ...
    return Clifford(StabilizerTable(symp3, phase))

Python's `random.Random` (a deterministic PRNG once seeded) and
`symplectic_utils.symplectic` (the Koenig-Smolin index-to-matrix
bijection, whose source file is absent) are modelled from the spec as
explicit function parameters: `seedInit` maps a seed to a generator
state, `nextBit` and `nextBelow` draw from the state, and `symp_fn`
maps `(rint, num_qubits)` to a boolean matrix.  The function threads
the freshly seeded state exactly as the source does, so its result is
a pure function of `(num_qubits, seed)`. -/
def random_clifford (seedInit : Nat → Nat) (nextBit : Nat → Bool × Nat)
    (nextBelow : Nat → Nat → Nat × Nat) (symp_fn : Nat → Nat → List (List Bool))
    (num_qubits seed : Nat) : Clifford :=
  let s0 := seedInit seed
  let pr := (List.range (2 * num_qubits)).foldl
    (fun (acc : List Bool × Nat) _ =>
      let bs := nextBit acc.2
      (acc.1 ++ [bs.1], bs.2)) ([], s0)
  let size := group_order_size num_qubits
  let rint := (nextBelow pr.2 size).1
  let symp := symp_fn rint num_qubits
  let symp2 := (List.range (2 * num_qubits)).map
    (fun i => if i < num_qubits then symp.getD (2 * i) []
      else symp.getD (2 * (i - num_qubits) + 1) [])
  let symp3 := symp2.map
    (fun row => (List.range (2 * num_qubits)).map
      (fun j => if j < num_qubits then row.getD (2 * j) false
        else row.getD (2 * (j - num_qubits) + 1) false))
  ⟨⟨symp3, pr.1⟩⟩

/-- C7: for any PRNG model and any index-to-matrix map, two calls of
`random_clifford` with the same qubit count and seed return identical
tableau bit arrays and identical phase vectors — the function seeds a
fresh local generator and is a pure function of `(num_qubits, seed)`,
with no other source of state. -/
theorem random_clifford_deterministic (seedInit : Nat → Nat) (nextBit : Nat → Bool × Nat)
    (nextBelow : Nat → Nat → Nat × Nat) (symp_fn : Nat → Nat → List (List Bool))
    (n S : Nat) :
    (random_clifford seedInit nextBit nextBelow symp_fn n S).table.array
        = (random_clifford seedInit nextBit nextBelow symp_fn n S).table.array ∧
      (random_clifford seedInit nextBit nextBelow symp_fn n S).table.phase
        = (random_clifford seedInit nextBit nextBelow symp_fn n S).table.phase :=
  ⟨rfl, rfl⟩

/-! ### Constructor shape validation (clifford.py lines 47-56) -/

/-- A correctly shaped 2x2 table that is NOT a valid symplectic table
(`T·Ω·Tᵀ mod 2 ≠ Ω` for the all-ones array). -/
def nonSympTable : StabTable := ⟨[[true, true], [true, true]], [false, false]⟩

/-- C10: constructing from raw table data fails iff the row count
differs from `2 * n_qubits`; on success the element stores the table
unchanged and satisfies `size = 2 * n_qubits`; and the correctly shaped
but non-symplectic all-ones table is accepted. -/
theorem clifford_init_shape (t : StabTable) :
    ((∃ e, Clifford.init t = Except.error e) ↔ t.size ≠ 2 * t.n_qubits) ∧
      (∀ c, Clifford.init t = Except.ok c →
        c.table.size = 2 * c.table.n_qubits ∧ c.table = t) ∧
      (Clifford.init nonSympTable = Except.ok ⟨nonSympTable⟩ ∧
        symplectic_condition 1 (tableEntry ⟨nonSympTable⟩) = false) := by
  refine ⟨?_, ?_, rfl, by decide⟩
  · unfold Clifford.init
    by_cases h : t.size ≠ 2 * t.n_qubits <;> simp [h]
  · intro c hc
    unfold Clifford.init at hc
    by_cases h : t.size ≠ 2 * t.n_qubits
    · simp [h] at hc
    · simp [h] at hc
      push_neg at h
      exact ⟨by simpa [← hc] using h, by simp [← hc]⟩

/-- Witness for C10: the success implication discharged at the concrete
S-gate-with-phase table `t0ex`. -/
theorem clifford_init_shape_witness :
    (⟨t0ex⟩ : Clifford).table.size = 2 * (⟨t0ex⟩ : Clifford).table.n_qubits ∧
      (⟨t0ex⟩ : Clifford).table = t0ex :=
  (clifford_init_shape t0ex).2.1 ⟨t0ex⟩ rfl
/-! ### Two-qubit canonical decomposition
(`append_gate_list` and `clifford2_gates`, clifford_utils.py lines 83-206)

The source accumulates textual gate entries such as `'z 0'` or
`'cx 0 1'` in a Python list; a gate entry is embedded as a gate name
plus its qubit list. -/

/-- One entry of the source's `gatelist` (gate name and target qubits). -/
structure GateTok where
  name : String
  qubits : List Nat
deriving DecidableEq, Repr

/-- The `if gate_type == 'pauli'` block of `append_gate_list`
(clifford_utils.py lines 84-90): index 1 appends `z`, 2 appends `x`,
3 appends `y`, anything else appends nothing. -/
def appendPauli (t : String) (q : List Nat) (gi : Option Nat) (l : List GateTok) : List GateTok :=
  if t = "pauli" then
    let a := if gi = some 1 then l ++ [⟨"z", [q.getD 0 0]⟩] else l
    let b := if gi = some 2 then a ++ [⟨"x", [q.getD 0 0]⟩] else a
    if gi = some 3 then b ++ [⟨"y", [q.getD 0 0]⟩] else b
  else l

/-- The `if gate_type == 'hadamard'` block (lines 91-93). -/
def appendHadamard (t : String) (q : List Nat) (gi : Option Nat) (l : List GateTok) : List GateTok :=
  if t = "hadamard" then
    if gi = some 1 then l ++ [⟨"h", [q.getD 0 0]⟩] else l
  else l

/-- The `if gate_type == 'rotation'` block (lines 94-98): index 1
appends `v`, 2 appends `w`. -/
def appendRotation (t : String) (q : List Nat) (gi : Option Nat) (l : List GateTok) : List GateTok :=
  if t = "rotation" then
    let a := if gi = some 1 then l ++ [⟨"v", [q.getD 0 0]⟩] else l
    if gi = some 2 then a ++ [⟨"w", [q.getD 0 0]⟩] else a
  else l

/-- The `if gate_type == 'cnot'` block (lines 99-100): always appends
one `cx` on the two target qubits. -/
def appendCnot (t : String) (q : List Nat) (l : List GateTok) : List GateTok :=
  if t = "cnot" then l ++ [⟨"cx", [q.getD 0 0, q.getD 1 0]⟩] else l

/-- Embeds `append_gate_list`: the four sequential `if gate_type == ...`
blocks applied in source order (mutation of the Python list becomes
returning the extended list). -/
def append_gate_list (gate_type : String) (qubits : List Nat) (gate_index : Option Nat)
    (gatelist : List GateTok) : List GateTok :=
  appendCnot gate_type qubits
    (appendRotation gate_type qubits gate_index
      (appendHadamard gate_type qubits gate_index
        (appendPauli gate_type qubits gate_index gatelist)))

/-- Gate names that can ever be appended: `cx` plus the six local
gates. -/
def gateNameOk (g : GateTok) : Bool :=
  decide (g.name ∈ (["cx", "h", "v", "w", "x", "y", "z"] : List String))

lemma allOk_appendPauli (t : String) (q : List Nat) (gi : Option Nat) (l : List GateTok)
    (h : l.all gateNameOk = true) : (appendPauli t q gi l).all gateNameOk = true := by
  unfold appendPauli
  split_ifs <;> simp [List.all_append, h, gateNameOk]

lemma allOk_appendHadamard (t : String) (q : List Nat) (gi : Option Nat) (l : List GateTok)
    (h : l.all gateNameOk = true) : (appendHadamard t q gi l).all gateNameOk = true := by
  unfold appendHadamard
  split_ifs <;> simp [List.all_append, h, gateNameOk]

lemma allOk_appendRotation (t : String) (q : List Nat) (gi : Option Nat) (l : List GateTok)
    (h : l.all gateNameOk = true) : (appendRotation t q gi l).all gateNameOk = true := by
  unfold appendRotation
  split_ifs <;> simp [List.all_append, h, gateNameOk]

lemma allOk_appendCnot (t : String) (q : List Nat) (l : List GateTok)
    (h : l.all gateNameOk = true) : (appendCnot t q l).all gateNameOk = true := by
  unfold appendCnot
  split_ifs <;> simp [List.all_append, h, gateNameOk]

lemma allOk_agl (t : String) (q : List Nat) (gi : Option Nat) (l : List GateTok)
    (h : l.all gateNameOk = true) : (append_gate_list t q gi l).all gateNameOk = true :=
  allOk_appendCnot t q _ (allOk_appendRotation t q gi _ (allOk_appendHadamard t q gi _ (allOk_appendPauli t q gi l h)))

/-- Number of `cx` entries in a gate list. -/
def countCx (l : List GateTok) : Nat := l.countP (fun g => decide (g.name = "cx"))

lemma countCx_append (l s : List GateTok) : countCx (l ++ s) = countCx l + countCx s := by
  simp [countCx, List.countP_append]

lemma countCx_appendPauli (t : String) (q : List Nat) (gi : Option Nat) (l : List GateTok) :
    countCx (appendPauli t q gi l) = countCx l := by
  unfold appendPauli
  split_ifs <;> simp [countCx_append] <;> rfl

lemma countCx_appendHadamard (t : String) (q : List Nat) (gi : Option Nat) (l : List GateTok) :
    countCx (appendHadamard t q gi l) = countCx l := by
  unfold appendHadamard
  split_ifs <;> simp [countCx_append] <;> rfl

lemma countCx_appendRotation (t : String) (q : List Nat) (gi : Option Nat) (l : List GateTok) :
    countCx (appendRotation t q gi l) = countCx l := by
  unfold appendRotation
  split_ifs <;> simp [countCx_append] <;> rfl

lemma countCx_appendCnot (t : String) (q : List Nat) (l : List GateTok) :
    countCx (appendCnot t q l) = countCx l + (if t = "cnot" then 1 else 0) := by
  unfold appendCnot
  split_ifs <;> simp [countCx_append] <;> rfl

lemma countCx_agl (t : String) (q : List Nat) (gi : Option Nat) (l : List GateTok) :
    countCx (append_gate_list t q gi l) = countCx l + (if t = "cnot" then 1 else 0) := by
  unfold append_gate_list
  rw [countCx_appendCnot, countCx_appendRotation, countCx_appendHadamard, countCx_appendPauli]

/-- The `symp < 36` branch of `clifford2_gates` (1-qubit Cliffords
class, lines 142-151). -/
def c2g_local (symp : Nat) : List GateTok :=
  append_gate_list "rotation" [1] (some ((symp / 3) % 3))
    (append_gate_list "rotation" [0] (some (symp % 3))
      (append_gate_list "hadamard" [1] (some ((symp / 18) % 2))
        (append_gate_list "hadamard" [0] (some ((symp / 9) % 2)) [])))

/-- The `36 <= symp < 360` branch (CNOT-like class, lines 153-168),
taking `s = symp - 36`. -/
def c2g_cnotlike (s : Nat) : List GateTok :=
  append_gate_list "rotation" [1] (some ((s / 27) % 3))
    (append_gate_list "rotation" [0] (some ((s / 9) % 3))
      (append_gate_list "cnot" [0, 1] none
        (append_gate_list "rotation" [1] (some ((s / 3) % 3))
          (append_gate_list "rotation" [0] (some (s % 3))
            (append_gate_list "hadamard" [1] (some ((s / 162) % 2))
              (append_gate_list "hadamard" [0] (some ((s / 81) % 2)) []))))))

/-- The `360 <= symp < 684` branch (iSWAP-like class, lines 170-186),
taking `s = symp - 360`. -/
def c2g_iswaplike (s : Nat) : List GateTok :=
  append_gate_list "rotation" [1] (some ((s / 27) % 3))
    (append_gate_list "rotation" [0] (some ((s / 9) % 3))
      (append_gate_list "cnot" [1, 0] none
        (append_gate_list "cnot" [0, 1] none
          (append_gate_list "rotation" [1] (some ((s / 3) % 3))
            (append_gate_list "rotation" [0] (some (s % 3))
              (append_gate_list "hadamard" [1] (some ((s / 162) % 2))
                (append_gate_list "hadamard" [0] (some ((s / 81) % 2)) [])))))))

/-- The `symp >= 684` branch (SWAP class, lines 188-201), taking
`s = symp - 684`. -/
def c2g_swaplike (s : Nat) : List GateTok :=
  append_gate_list "cnot" [0, 1] none
    (append_gate_list "cnot" [1, 0] none
      (append_gate_list "cnot" [0, 1] none
        (append_gate_list "rotation" [1] (some ((s / 3) % 3))
          (append_gate_list "rotation" [0] (some (s % 3))
            (append_gate_list "hadamard" [1] (some ((s / 18) % 2))
              (append_gate_list "hadamard" [0] (some ((s / 9) % 2)) []))))))

/-- Embeds `clifford2_gates` (clifford_utils.py lines 126-206): class
selection by sub-ranges of `symp = (idx mod 11520) div 16`, followed by
the two Pauli appends. -/
def clifford2_gates (idx : Nat) : List GateTok :=
  let cannon := idx % 11520
  let pauli := cannon % 16
  let symp := cannon / 16
  append_gate_list "pauli" [1] (some (pauli / 4))
    (append_gate_list "pauli" [0] (some (pauli % 4))
      (if symp < 36 then c2g_local symp
       else if symp < 360 then c2g_cnotlike (symp - 36)
       else if symp < 684 then c2g_iswaplike (symp - 360)
       else c2g_swaplike (symp - 684)))

lemma countCx_nil : countCx [] = 0 := rfl

lemma countCx_c2g_local (s : Nat) : countCx (c2g_local s) = 0 := by
  simp [c2g_local, countCx_agl, countCx_nil]

lemma countCx_c2g_cnotlike (s : Nat) : countCx (c2g_cnotlike s) = 1 := by
  simp [c2g_cnotlike, countCx_agl, countCx_nil]

lemma countCx_c2g_iswaplike (s : Nat) : countCx (c2g_iswaplike s) = 2 := by
  simp [c2g_iswaplike, countCx_agl, countCx_nil]

lemma countCx_c2g_swaplike (s : Nat) : countCx (c2g_swaplike s) = 3 := by
  simp [c2g_swaplike, countCx_agl, countCx_nil]

lemma allOk_c2g_local (s : Nat) : (c2g_local s).all gateNameOk = true := by
  unfold c2g_local
  repeat' first | apply allOk_agl | rfl

lemma allOk_c2g_cnotlike (s : Nat) : (c2g_cnotlike s).all gateNameOk = true := by
  unfold c2g_cnotlike
  repeat' first | apply allOk_agl | rfl

lemma allOk_c2g_iswaplike (s : Nat) : (c2g_iswaplike s).all gateNameOk = true := by
  unfold c2g_iswaplike
  repeat' first | apply allOk_agl | rfl

lemma allOk_c2g_swaplike (s : Nat) : (c2g_swaplike s).all gateNameOk = true := by
  unfold c2g_swaplike
  repeat' first | apply allOk_agl | rfl

/-- C9: for every index, the structural class is selected solely from
`s = (idx mod 11520) div 16` by fixed sub-ranges — no `cx` for
`s < 36`, exactly one for `36 <= s < 360`, exactly two for
`360 <= s < 684`, exactly three otherwise — and every non-`cx` gate is
drawn from `h, v, w, x, y, z`. -/
theorem clifford2_gates_classes (idx : Nat) :
    (countCx (clifford2_gates idx) =
      if (idx % 11520) / 16 < 36 then 0
      else if (idx % 11520) / 16 < 360 then 1
      else if (idx % 11520) / 16 < 684 then 2 else 3) ∧
      ∀ g ∈ clifford2_gates idx,
        g.name = "cx" ∨ g.name ∈ (["h", "v", "w", "x", "y", "z"] : List String) := by
  constructor
  · unfold clifford2_gates
    simp only [countCx_agl, apply_ite countCx, countCx_c2g_local, countCx_c2g_cnotlike,
      countCx_c2g_iswaplike, countCx_c2g_swaplike]
    simp
  · have hall : (clifford2_gates idx).all gateNameOk = true := by
      unfold clifford2_gates
      apply allOk_agl
      apply allOk_agl
      rw [apply_ite (fun l : List GateTok => l.all gateNameOk)]
      simp [allOk_c2g_local, allOk_c2g_cnotlike, allOk_c2g_iswaplike, allOk_c2g_swaplike,
        apply_ite (fun l : List GateTok => l.all gateNameOk)]
    intro g hg
    have hok := of_decide_eq_true (List.all_eq_true.1 hall g hg)
    simpa using hok

/-- Witness for C9: the membership hypothesis discharged at index 1,
whose gate list is the single entry `z 0`. -/
theorem clifford2_gates_classes_witness :
    (⟨"z", [0]⟩ : GateTok) ∈ clifford2_gates 1 ∧
      ((⟨"z", [0]⟩ : GateTok).name = "cx" ∨
        (⟨"z", [0]⟩ : GateTok).name ∈ (["h", "v", "w", "x", "y", "z"] : List String)) :=
  ⟨by decide, (clifford2_gates_classes 1).2 ⟨"z", [0]⟩ (by decide)⟩
/-! ### Dictionary serialization
(`Clifford.to_dict` / `Clifford.from_dict`, clifford.py lines 284-296)

    def to_dict(self):
        return {"stabilizer": self.stabilizer.to_labels(),
                "destabilizer": self.destabilizer.to_labels()}

    def from_dict(obj):
        destabilizer = StabilizerTable.from_labels(obj.get('destabilizer'))
        stabilizer = StabilizerTable.from_labels(obj.get('stabilizer'))
        return Clifford(destabilizer + stabilizer)

`StabilizerTable.to_labels` / `from_labels` / `__add__` live in the
absent `stabilizer_table.py` and are modelled from the spec: a row
label is a sign character followed by one Pauli letter per qubit, with
the most significant qubit leftmost while the bit arrays store the
least significant qubit first; `+` stacks the rows of two tables.  A
label is embedded as its list of characters. -/

/-- Modelled from the spec: the Pauli letter for an (x, z) bit pair. -/
def xzToChar (x z : Bool) : Char :=
  if x then (if z then 'Y' else 'X') else (if z then 'Z' else 'I')

/-- Modelled from the spec: inverse of `xzToChar`; unknown letters are a
parse failure. -/
def charToXZ (c : Char) : Option (Bool × Bool) :=
  if c = 'I' then some (false, false)
  else if c = 'X' then some (true, false)
  else if c = 'Z' then some (false, true)
  else if c = 'Y' then some (true, true)
  else none

/-- Modelled from the spec: the leading sign encodes the phase bit. -/
def parseSign (s : Char) : Option Bool :=
  if s = '+' then some false else if s = '-' then some true else none

/-- Modelled from the spec: the label of one table row (sign, then the
Pauli letters of qubits n-1 .. 0). -/
def mkLabel (n : Nat) (row : List Bool) (b : Bool) : List Char :=
  (if b then '-' else '+') ::
    ((List.range n).map (fun k => xzToChar (row.getD k false) (row.getD (n + k) false))).reverse

/-- Sequence a fallible parser over a list. -/
def optMap {α β : Type} (f : α → Option β) : List α → Option (List β)
  | [] => some []
  | a :: as =>
      match f a, optMap f as with
      | some b, some bs => some (b :: bs)
      | _, _ => none

/-- Modelled from the spec: parse one label back into a row (X bits then
Z bits) and its phase bit. -/
def label_to_row : List Char → Option (List Bool × Bool)
  | [] => none
  | s :: cs =>
      (parseSign s).bind (fun b =>
        (optMap charToXZ cs.reverse).map (fun pairs =>
          (pairs.map Prod.fst ++ pairs.map Prod.snd, b)))

/-- Modelled from the spec: `StabilizerTable.to_labels`. -/
def StabTable.to_labels (t : StabTable) : List (List Char) :=
  List.zipWith (mkLabel t.n_qubits) t.array t.phase

/-- Modelled from the spec: `StabilizerTable.from_labels`. -/
def from_labels (labels : List (List Char)) : Option StabTable :=
  (optMap label_to_row labels).map (fun rows =>
    ⟨rows.map Prod.fst, rows.map Prod.snd⟩)

/-- Embeds the `stabilizer` property: rows `n .. 2n-1` of the table
(clifford.py lines 109-112). -/
def Clifford.stabilizer (c : Clifford) : StabTable :=
  ⟨(c.table.array.drop c.n_qubits).take c.n_qubits,
    (c.table.phase.drop c.n_qubits).take c.n_qubits⟩

/-- Embeds the `destabilizer` property: rows `0 .. n-1` of the table
(clifford.py lines 120-123). -/
def Clifford.destabilizer (c : Clifford) : StabTable :=
  ⟨c.table.array.take c.n_qubits, c.table.phase.take c.n_qubits⟩

/-- Modelled from the spec: `StabilizerTable.__add__` stacks the rows of
the left operand above the rows of the right operand. -/
def stab_add (a b : StabTable) : StabTable := ⟨a.array ++ b.array, a.phase ++ b.phase⟩

/-- Embeds `Clifford.to_dict` as the pair
(stabilizer labels, destabilizer labels). -/
def Clifford.to_dict (c : Clifford) : List (List Char) × List (List Char) :=
  (c.stabilizer.to_labels, c.destabilizer.to_labels)

/-- Embeds `Clifford.from_dict`: parse both label lists, stack
destabilizer over stabilizer, and run the constructor. -/
def Clifford.from_dict (d : List (List Char) × List (List Char)) : Option Clifford :=
  (from_labels d.2).bind (fun destab =>
    (from_labels d.1).bind (fun stab =>
      match Clifford.init (stab_add destab stab) with
      | Except.ok c => some c
      | Except.error _ => none))

-- per-char round trip
lemma charToXZ_xzToChar (x z : Bool) : charToXZ (xzToChar x z) = some (x, z) := by
  cases x <;> cases z <;> decide

lemma parseSign_mk (b : Bool) : parseSign (if b then '-' else '+') = some b := by
  cases b <;> decide

lemma optMap_map {α β γ : Type} (f : α → Option β) (g : γ → α) (h : γ → β) (l : List γ)
    (H : ∀ c ∈ l, f (g c) = some (h c)) : optMap f (l.map g) = some (l.map h) := by
  induction l with
  | nil => rfl
  | cons a as ih =>
      simp only [List.map_cons, optMap, H a (by simp),
        ih (fun c hc => H c (by simp [hc]))]

lemma map_range_getD_take {α : Type} (l : List α) (n : Nat) (d : α) (h : n ≤ l.length) :
    (List.range n).map (fun k => l.getD k d) = l.take n := by
  apply List.ext_getElem
  · simp; omega
  · intro i h1 h2
    simp only [List.getElem_map, List.getElem_range, List.getElem_take]
    rw [List.getD_eq_getElem]

lemma map_range_getD_drop {α : Type} (l : List α) (n : Nat) (d : α) (h : n + n ≤ l.length) :
    (List.range n).map (fun k => l.getD (n + k) d) = (l.drop n).take n := by
  apply List.ext_getElem
  · simp; omega
  · intro i h1 h2
    simp only [List.getElem_map, List.getElem_range, List.getElem_take, List.getElem_drop]
    rw [List.getD_eq_getElem]

lemma label_to_row_mk (n : Nat) (row : List Bool) (b : Bool) (h : row.length = 2 * n) :
    label_to_row (mkLabel n row b) = some (row, b) := by
  simp only [mkLabel, label_to_row]
  rw [parseSign_mk, List.reverse_reverse]
  rw [optMap_map charToXZ _ (fun k => (row.getD k false, row.getD (n + k) false)) _
    (fun k _ => charToXZ_xzToChar _ _)]
  simp only [Option.some_bind', Option.map_some', List.map_map]
  have h1 : (List.range n).map
      ((fun p : Bool × Bool => p.1) ∘ (fun k => (row.getD k false, row.getD (n + k) false)))
      = row.take n := by
    rw [show ((fun p : Bool × Bool => p.1) ∘ (fun k => (row.getD k false, row.getD (n + k) false)))
      = fun k => row.getD k false from rfl]
    exact map_range_getD_take row n false (by omega)
  have h2 : (List.range n).map
      ((fun p : Bool × Bool => p.2) ∘ (fun k => (row.getD k false, row.getD (n + k) false)))
      = (row.drop n).take n := by
    rw [show ((fun p : Bool × Bool => p.2) ∘ (fun k => (row.getD k false, row.getD (n + k) false)))
      = fun k => row.getD (n + k) false from rfl]
    exact map_range_getD_drop row n false (by omega)
  rw [show (Prod.fst : Bool × Bool → Bool) = fun p : Bool × Bool => p.1 from rfl]
  rw [show (Prod.snd : Bool × Bool → Bool) = fun p : Bool × Bool => p.2 from rfl]
  rw [h1, h2]
  rw [show List.take n (List.drop n row) = List.drop n row from
    List.take_of_length_le (by simp; omega)]
  rw [List.take_append_drop]

lemma optMap_zipWith_mkLabel (n : Nat) : ∀ (arr : List (List Bool)) (ph : List Bool),
    (∀ row ∈ arr, row.length = 2 * n) →
    optMap label_to_row (List.zipWith (mkLabel n) arr ph) = some (arr.zip ph) := by
  intro arr
  induction arr with
  | nil => intro ph _; cases ph <;> rfl
  | cons r rs ih =>
      intro ph H
      cases ph with
      | nil => rfl
      | cons b bs =>
          simp only [List.zipWith_cons_cons, optMap,
            label_to_row_mk n r b (H r (by simp)),
            ih bs (fun row hr => H row (by simp [hr])), List.zip_cons_cons]

lemma from_labels_to_labels (t : StabTable) (n : Nat) (hn : t.n_qubits = n)
    (hl : t.phase.length = t.array.length)
    (hrows : ∀ row ∈ t.array, row.length = 2 * n) :
    from_labels t.to_labels = some ⟨t.array, t.phase⟩ := by
  unfold from_labels StabTable.to_labels
  rw [hn, optMap_zipWith_mkLabel n t.array t.phase hrows]
  simp only [Option.map_some']
  congr 2
  · exact List.map_fst_zip _ _ (le_of_eq hl.symm)
  · exact List.map_snd_zip _ _ (le_of_eq hl)

lemma headD_take {α : Type} (l : List α) (k : Nat) (d : α) (hk : 0 < k) :
    (l.take k).headD d = l.headD d := by
  cases l with
  | nil => simp
  | cons a as =>
      cases k with
      | zero => omega
      | succ m => simp

lemma n_qubits_eq {t : StabTable} {n : Nat} (hrows : ∀ row ∈ t.array, row.length = 2 * n)
    (hne : t.array = [] → n = 0) : t.n_qubits = n := by
  unfold StabTable.n_qubits
  cases harr : t.array with
  | nil => simp [hne harr]
  | cons r rs =>
      have hr := hrows r (by rw [harr]; simp)
      simp only [List.headD_cons, hr]
      omega

/-- C6: for every well-formed Clifford element (2N rows of length 2N
with a matching phase vector), serializing to the
stabilizer/destabilizer label dictionary and loading it back yields the
same element. -/
theorem from_dict_to_dict (c : Clifford)
    (hsz : c.table.size = 2 * c.table.n_qubits)
    (hph : c.table.phase.length = c.table.array.length)
    (hrows : ∀ row ∈ c.table.array, row.length = 2 * c.table.n_qubits) :
    Clifford.from_dict (Clifford.to_dict c) = some c := by
  have hnn : c.table.n_qubits = c.n_qubits := rfl
  have harr : c.table.array.length = 2 * c.n_qubits := hsz
  have hphl : c.table.phase.length = 2 * c.n_qubits := by rw [hph]; exact harr
  have hd_nq : c.destabilizer.n_qubits = c.n_qubits := by
    apply n_qubits_eq
    · intro row hr
      rw [hrows row (List.mem_of_mem_take hr), hnn]
    · intro hemp
      have hl0 := congrArg List.length hemp
      simp only [Clifford.destabilizer, List.length_take, List.length_nil] at hl0
      omega
  have hs_nq : c.stabilizer.n_qubits = c.n_qubits := by
    apply n_qubits_eq
    · intro row hr
      rw [hrows row (List.mem_of_mem_drop (List.mem_of_mem_take hr)), hnn]
    · intro hemp
      have hl0 := congrArg List.length hemp
      simp only [Clifford.stabilizer, List.length_take, List.length_drop,
        List.length_nil] at hl0
      omega
  have hd := from_labels_to_labels c.destabilizer c.n_qubits hd_nq
    (by simp only [Clifford.destabilizer, List.length_take]; omega)
    (fun row hr => by rw [hrows row (List.mem_of_mem_take hr), hnn])
  have hs := from_labels_to_labels c.stabilizer c.n_qubits hs_nq
    (by simp only [Clifford.stabilizer, List.length_take, List.length_drop]; omega)
    (fun row hr => by
      rw [hrows row (List.mem_of_mem_drop (List.mem_of_mem_take hr)), hnn])
  unfold Clifford.to_dict Clifford.from_dict
  rw [hd, hs]
  simp only [Option.some_bind']
  have hadd : stab_add ⟨c.destabilizer.array, c.destabilizer.phase⟩
      ⟨c.stabilizer.array, c.stabilizer.phase⟩ = c.table := by
    unfold stab_add Clifford.destabilizer Clifford.stabilizer
    have e1 : (c.table.array.drop c.n_qubits).take c.n_qubits
        = c.table.array.drop c.n_qubits :=
      List.take_of_length_le (by simp only [List.length_drop]; omega)
    have e2 : (c.table.phase.drop c.n_qubits).take c.n_qubits
        = c.table.phase.drop c.n_qubits :=
      List.take_of_length_le (by simp only [List.length_drop]; omega)
    rw [e1, e2, List.take_append_drop, List.take_append_drop]
  rw [hadd]
  have hinit : Clifford.init c.table = Except.ok ⟨c.table⟩ := by
    unfold Clifford.init
    rw [if_neg (by omega)]
  rw [hinit]

/-- Witness for C6: the round trip discharged at the S-gate element. -/
theorem from_dict_to_dict_witness :
    sGateClifford.table.size = 2 * sGateClifford.table.n_qubits ∧
      sGateClifford.table.phase.length = sGateClifford.table.array.length ∧
      (∀ row ∈ sGateClifford.table.array,
        row.length = 2 * sGateClifford.table.n_qubits) ∧
      Clifford.from_dict (Clifford.to_dict sGateClifford) = some sGateClifford :=
  ⟨by decide, by decide, by decide,
    from_dict_to_dict sGateClifford (by decide) (by decide) (by decide)⟩
